import Mathlib

/-!
Verification of the streaming tool-calling agent engine of this repository
(`mahindrabot.services.llm_service`): the tolerant JSON fragment parser,
the stream event assembler, the message translator, the agent response
aggregator and the tool execution subsystem.

Python sources embedded here:
- `src/mahindrabot/services/llm_service/utils.py` (parser, assembler, translator)
- `src/mahindrabot/services/llm_service/agent.py` (aggregator, tool execution)

The message data classes (`messages.py`) and the third-party `jiter` JSON
parser are not part of the sources; they are modelled from the spec where
noted.
-/

set_option maxRecDepth 10000

/-! ## JSON values

A model of the JSON values the tolerant parser produces.  Numbers are kept
as their raw token text (the engine never computes with them; this avoids
floating point). -/

inductive JSONVal where
  | null : JSONVal
  | bool (b : Bool) : JSONVal
  | num (tok : String) : JSONVal
  | str (s : String) : JSONVal
  | arr (elems : List JSONVal) : JSONVal
  | obj (members : List (String × JSONVal)) : JSONVal

/-- A decoded JSON argument map (a Python `dict`). -/
def JSONObj := List (String × JSONVal)

/-! ## Tolerant JSON parsing machine

Modelled from the spec: the repository calls `jiter.from_json(...,
partial_mode="trailing-strings")`, a third-party parser not under `src/`.
Per spec §4.1 step 4 it parses JSON while tolerating truncation at the end:
a dangling open string/array/object is closed with what was captured so far,
with the last unterminated string kept ("trailing-strings").  We model it as
a character-driven state machine: one step per input character, `none`
meaning the parse raises.  End-of-input is handled by a finalizer, in two
variants: strict (complete documents, used to define validity) and tolerant
(the partial mode).  The machine state is a stack of open containers plus a
scanning mode for the token currently being read. -/

/-- An open (not yet closed) container: the elements / members collected so
far are held in reverse order. -/
inductive Frame where
  | arrF (elemsRev : List JSONVal) : Frame
  | objF (membersRev : List (String × JSONVal)) (pendingKey : Option String) : Frame

/-- Position inside a number token. -/
inductive NumState where
  | nMinus | nZero | nInt | nDot | nFrac | nE | nESign | nExp
deriving DecidableEq

/-- Number states in which the token read so far is a complete JSON number. -/
def NumState.accepting : NumState → Bool
  | .nZero => true
  | .nInt => true
  | .nFrac => true
  | .nExp => true
  | _ => false

/-- Scanning mode: what the machine expects next.  String and number
accumulators are held in reverse order. -/
inductive Mode where
  | mValue : Mode
  | mKey : Mode
  | mColon : Mode
  | mAfterVal : Mode
  | mStr (accRev : List Char) (isKey : Bool) : Mode
  | mStrEsc (accRev : List Char) (isKey : Bool) : Mode
  | mStrU (accRev : List Char) (isKey : Bool) (hex : List Char) : Mode
  | mLit (rest : List Char) (v : JSONVal) : Mode
  | mNum (accRev : List Char) (st : NumState) : Mode

/-- Whole machine state: still parsing the root value, or root value done
(only whitespace may follow). -/
inductive MachineS where
  | run (stack : List Frame) (mode : Mode) : MachineS
  | done (v : JSONVal) : MachineS

def isJsonWs (c : Char) : Bool :=
  c.toNat == 32 || c.toNat == 9 || c.toNat == 10 || c.toNat == 13

def hexDig (c : Char) : Bool :=
  c.isDigit || ('a' ≤ c && c ≤ 'f') || ('A' ≤ c && c ≤ 'F')

def hexVal (c : Char) : Nat :=
  if c.isDigit then c.toNat - '0'.toNat
  else if 'a' ≤ c && c ≤ 'f' then c.toNat - 'a'.toNat + 10
  else if 'A' ≤ c && c ≤ 'F' then c.toNat - 'A'.toNat + 10
  else 0

/-- Decode a `\uXXXX` escape (4 hex digits).  Invalid scalar values (lone
surrogates) become `Char.ofNat`'s default; the engine never inspects them. -/
def decodeU (hex : List Char) : Char :=
  Char.ofNat (hex.foldl (fun n c => n * 16 + hexVal c) 0)

/-- Simple string escapes (`\uXXXX` handled separately). -/
def escDecode (c : Char) : Option Char :=
  List.lookup c
    [('"', '"'), ('\\', '\\'), ('/', '/'),
     ('b', Char.ofNat 8), ('f', Char.ofNat 12),
     ('n', Char.ofNat 10), ('r', Char.ofNat 13), ('t', Char.ofNat 9)]

/-- Deliver a completed value to the innermost open container, or finish the
root.  `none`: broken invariant (an object awaiting its key). -/
def pushVal (stack : List Frame) (v : JSONVal) : Option MachineS :=
  match stack with
  | [] => some (.done v)
  | .arrF ds :: fs => some (.run (.arrF (v :: ds) :: fs) .mAfterVal)
  | .objF ds (some k) :: fs => some (.run (.objF ((k, v) :: ds) none :: fs) .mAfterVal)
  | .objF _ none :: _ => none

/-- Transition for `mAfterVal` (a value inside a container just ended):
expects `,`, the matching close bracket, or whitespace. -/
def stepAfterVal (stack : List Frame) (c : Char) : Option MachineS :=
  if isJsonWs c then some (.run stack .mAfterVal)
  else if c == ',' then
    match stack with
    | .arrF _ :: _ => some (.run stack .mValue)
    | .objF _ none :: _ => some (.run stack .mKey)
    | _ => none
  else if c == ']' then
    match stack with
    | .arrF ds :: fs => pushVal fs (.arr ds.reverse)
    | _ => none
  else if c == '}' then
    match stack with
    | .objF ds none :: fs => pushVal fs (.obj ds.reverse)
    | _ => none
  else none

/-- Transition for `mValue` (expecting the start of a value).  `]` closes an
empty array (only directly after `[`, i.e. when no element was collected). -/
def startValue (stack : List Frame) (c : Char) : Option MachineS :=
  if isJsonWs c then some (.run stack .mValue)
  else if c == '"' then some (.run stack (.mStr [] false))
  else if c == '{' then some (.run (.objF [] none :: stack) .mKey)
  else if c == '[' then some (.run (.arrF [] :: stack) .mValue)
  else if c == 't' then some (.run stack (.mLit ['r', 'u', 'e'] (.bool true)))
  else if c == 'f' then some (.run stack (.mLit ['a', 'l', 's', 'e'] (.bool false)))
  else if c == 'n' then some (.run stack (.mLit ['u', 'l', 'l'] .null))
  else if c == '-' then some (.run stack (.mNum ['-'] .nMinus))
  else if c == '0' then some (.run stack (.mNum ['0'] .nZero))
  else if c.isDigit then some (.run stack (.mNum [c] .nInt))
  else if c == ']' then
    match stack with
    | .arrF [] :: fs => pushVal fs (.arr [])
    | _ => none
  else none

/-- A character that terminates a number token (then handled by the state
the completed number leads to). -/
def numDelim (c : Char) : Bool :=
  isJsonWs c || c == ',' || c == ']' || c == '}'

/-- Deliver a completed number token and process the delimiter character
that terminated it in the successor state. -/
def numFinish (stack : List Frame) (accRev : List Char) (c : Char) : Option MachineS :=
  match pushVal stack (.num (String.mk accRev.reverse)) with
  | some (.done v) => if isJsonWs c then some (.done v) else none
  | some (.run stack' _) => stepAfterVal stack' c
  | none => none

/-- Number-token transition; on a delimiter in an accepting state the number
is delivered and the delimiter is processed by the successor state. -/
def stepNum (stack : List Frame) (accRev : List Char) (st : NumState) (c : Char) :
    Option MachineS :=
  match st with
  | .nMinus =>
    if c == '0' then some (.run stack (.mNum (c :: accRev) .nZero))
    else if c.isDigit then some (.run stack (.mNum (c :: accRev) .nInt))
    else none
  | .nZero =>
    if c == '.' then some (.run stack (.mNum (c :: accRev) .nDot))
    else if c == 'e' || c == 'E' then some (.run stack (.mNum (c :: accRev) .nE))
    else if numDelim c then numFinish stack accRev c
    else none
  | .nInt =>
    if c.isDigit then some (.run stack (.mNum (c :: accRev) .nInt))
    else if c == '.' then some (.run stack (.mNum (c :: accRev) .nDot))
    else if c == 'e' || c == 'E' then some (.run stack (.mNum (c :: accRev) .nE))
    else if numDelim c then numFinish stack accRev c
    else none
  | .nDot =>
    if c.isDigit then some (.run stack (.mNum (c :: accRev) .nFrac))
    else none
  | .nFrac =>
    if c.isDigit then some (.run stack (.mNum (c :: accRev) .nFrac))
    else if c == 'e' || c == 'E' then some (.run stack (.mNum (c :: accRev) .nE))
    else if numDelim c then numFinish stack accRev c
    else none
  | .nE =>
    if c.isDigit then some (.run stack (.mNum (c :: accRev) .nExp))
    else if c == '+' || c == '-' then some (.run stack (.mNum (c :: accRev) .nESign))
    else none
  | .nESign =>
    if c.isDigit then some (.run stack (.mNum (c :: accRev) .nExp))
    else none
  | .nExp =>
    if c.isDigit then some (.run stack (.mNum (c :: accRev) .nExp))
    else if numDelim c then numFinish stack accRev c
    else none

/-- One machine step per input character; `none` = the parse raises. -/
def step : MachineS → Char → Option MachineS
  | .done v, c => if isJsonWs c then some (.done v) else none
  | .run stack .mValue, c => startValue stack c
  | .run stack .mKey, c =>
    if isJsonWs c then some (.run stack .mKey)
    else if c == '"' then some (.run stack (.mStr [] true))
    else if c == '}' then
      match stack with
      | .objF [] none :: fs => pushVal fs (.obj [])
      | _ => none
    else none
  | .run stack .mColon, c =>
    if isJsonWs c then some (.run stack .mColon)
    else if c == ':' then some (.run stack .mValue)
    else none
  | .run stack .mAfterVal, c => stepAfterVal stack c
  | .run stack (.mStr accRev isKey), c =>
    if c == '"' then
      if isKey then
        match stack with
        | .objF ds none :: fs =>
          some (.run (.objF ds (some (String.mk accRev.reverse)) :: fs) .mColon)
        | _ => none
      else pushVal stack (.str (String.mk accRev.reverse))
    else if c == '\\' then some (.run stack (.mStrEsc accRev isKey))
    else if c.toNat < 32 then none
    else some (.run stack (.mStr (c :: accRev) isKey))
  | .run stack (.mStrEsc accRev isKey), c =>
    if c == 'u' then some (.run stack (.mStrU accRev isKey []))
    else
      match escDecode c with
      | some d => some (.run stack (.mStr (d :: accRev) isKey))
      | none => none
  | .run stack (.mStrU accRev isKey hex), c =>
    if hexDig c then
      if hex.length == 3 then
        some (.run stack (.mStr (decodeU (hex ++ [c]) :: accRev) isKey))
      else some (.run stack (.mStrU accRev isKey (hex ++ [c])))
    else none
  | .run stack (.mLit rest v), c =>
    match rest with
    | [] => none
    | l :: ls =>
      if c == l then
        if ls.isEmpty then pushVal stack v else some (.run stack (.mLit ls v))
      else none
  | .run stack (.mNum accRev st), c => stepNum stack accRev st c

/-- Step lifted to `Option`: a raised parse (`none`) is absorbing. -/
def stepO (s : Option MachineS) (c : Char) : Option MachineS :=
  s.bind (fun st => step st c)

def initS : MachineS := .run [] .mValue

/-- Run the machine from a given state over a character list. -/
def runFrom (s : Option MachineS) (l : List Char) : Option MachineS :=
  l.foldl stepO s

/-- Run the machine over a whole input. -/
def runM (l : List Char) : Option MachineS :=
  runFrom (some initS) l

/-- The value the current scanning mode contributes at end of input in the
tolerant ("trailing-strings") finalization: an unterminated string is kept
as captured so far (a dangling escape is dropped, an unterminated key is
dropped), a number is kept if its token is complete, anything else
contributes nothing. -/
def modePiece : Mode → Option JSONVal
  | .mStr accRev false => some (.str (String.mk accRev.reverse))
  | .mStrEsc accRev false => some (.str (String.mk accRev.reverse))
  | .mStrU accRev false _ => some (.str (String.mk accRev.reverse))
  | .mNum accRev st =>
    if st.accepting then some (.num (String.mk accRev.reverse)) else none
  | _ => none

/-- Close all still-open containers from the inside out, threading the piece
contributed by the innermost position. -/
def unwind : List Frame → Option JSONVal → Option JSONVal
  | [], piece => piece
  | .arrF ds :: fs, piece => unwind fs (some (.arr (ds.reverse ++ piece.toList)))
  | .objF ds pk :: fs, piece =>
    unwind fs (some (.obj (ds.reverse ++
      (match pk, piece with
       | some k, some v => [(k, v)]
       | _, _ => []))))

/-- Tolerant end-of-input: what `partial_mode="trailing-strings"` returns.
`none` = the parse raises (nothing recoverable was captured). -/
def finalizeTol : MachineS → Option JSONVal
  | .done v => some v
  | .run stack mode => unwind stack (modePiece mode)

/-- Strict end-of-input: the document must be complete (a root-level number
may be terminated by end of input). -/
def finalizeStrict : MachineS → Option JSONVal
  | .done v => some v
  | .run [] (.mNum accRev st) =>
    if st.accepting then some (.num (String.mk accRev.reverse)) else none
  | .run _ _ => none

/-- Modelled from the spec: `jiter.from_json(s, partial_mode="trailing-strings")`
(third-party, not under `src/`), per spec §4.1 step 4. -/
def jiterFromJson (s : String) : Except String JSONVal :=
  match runM s.data with
  | none => .error "jiter: malformed JSON"
  | some st =>
    match finalizeTol st with
    | some v => .ok v
    | none => .error "jiter: EOF while parsing a value"

/-- Whether `s` is a syntactically valid, complete JSON document. -/
def validJson (s : String) : Bool :=
  match runM s.data with
  | none => false
  | some st => (finalizeStrict st).isSome

/-! ## `parse_partial_json` (utils.py lines 33-64) -/

/-- Python's single-quote character, used in error texts. -/
def pyQuote : String := (Char.ofNat 39).toString

/-- Characters Python's `str.strip()` removes (the whitespace relevant to
JSON input; approximation of Python's full Unicode whitespace set). -/
def isPyWs (c : Char) : Bool :=
  isJsonWs c || c == Char.ofNat 11 || c == Char.ofNat 12

/-- Whether the character exists and is a hex digit. -/
def optHex : Option Char → Bool
  | some c => hexDig c
  | none => false

/-- Length of the match of `PARTIAL_UNICODE_PATTERN` (`\u` + 0-3 hex
digits anchored at the end), on the reversed character list: `\u` may sit
0, 1, 2 or 3 hex digits below the end.  The alternatives are mutually
exclusive (a hex digit is never `u` or a backslash), so an if-chain
faithfully renders the regex. -/
def uniDrop (r : List Char) : Nat :=
  if r[0]? == some 'u' && r[1]? == some '\\' then 2
  else if r[1]? == some 'u' && r[2]? == some '\\' then
    if optHex r[0]? then 3 else 0
  else if r[2]? == some 'u' && r[3]? == some '\\' then
    if optHex r[0]? && optHex r[1]? then 4 else 0
  else if r[3]? == some 'u' && r[4]? == some '\\' then
    if optHex r[0]? && optHex r[1]? && optHex r[2]? then 5 else 0
  else 0

/-- How many trailing characters the repair step of `parse_partial_json`
drops, computed on the reversed character list.  Mirrors utils.py lines
52-60: drop one trailing quote that is neither `\"` nor `:"`, or one
trailing unescaped backslash; otherwise drop a trailing partial Unicode
escape (`PARTIAL_UNICODE_PATTERN`). -/
def dropCountR : List Char → Nat
  | [] => 0
  | c :: rest =>
    if c == '"' then
      match rest with
      | [] => 1
      | p :: _ => if p == '\\' || p == ':' then 0 else 1
    else if c == '\\' then
      match rest with
      | [] => 1
      | p :: _ => if p == '\\' then 0 else 1
    else uniDrop (c :: rest)

/-- The repair step applied to the raw characters. -/
def repairData (l : List Char) : List Char :=
  l.take (l.length - dropCountR l.reverse)

/-- Embeds `parse_partial_json` (utils.py lines 33-64): empty/whitespace-only input
returns the empty-string sentinel; otherwise the trailing-character repair
is applied and the result parsed by jiter in trailing-strings partial mode.
An `Except.error` models the Python call raising. -/
def parsePartialJson (s : String) : Except String JSONVal :=
  if s.data.all isPyWs then .ok (.str "")
  else jiterFromJson (String.mk (repairData s.data))

/-! ## Message data model

Modelled from the spec: the repository's `messages.py`
(`mahindrabot.services.llm_service.messages`) is not under `src/`; these
data classes are modelled from spec §3 (Data Model) and the fields the
sources use.  On the status enumerations: spec §3 gives a Tool Result the
status pending/success/failure, while execution Outputs (spec §4.5) only
ever carry success or failure. -/

/-- Modelled from the spec: status of an execution Output (spec §4.5). -/
inductive ToolOutputStatus where
  | success | failure
deriving DecidableEq, Repr

/-- Modelled from the spec: status of a Tool Result (spec §3). -/
inductive ToolResultStatus where
  | pending | success | failure
deriving DecidableEq, Repr

def ToolOutputStatus.toResult : ToolOutputStatus → ToolResultStatus
  | .success => .success
  | .failure => .failure

/-- Modelled from the spec: an execution output record (spec §4.5): text plus a status, with
optional structured metadata. -/
structure ToolOutput where
  text : String
  status : ToolOutputStatus
  metadata : Option String := none

/-- Modelled from the spec: a tool call request (spec §3): provider identifier, tool name, raw
undecoded argument text, best-effort decoded argument map. -/
structure ToolCallRequest where
  id : String
  name : String
  raw_input : String
  input : JSONObj

/-- Modelled from the spec: a tool result (spec §3): created pending with empty output when the
request is first observed, mutated once by tool execution. -/
structure ToolResult where
  id : String
  name : String
  raw_input : String
  input : JSONObj
  output : Option String := none
  status : ToolResultStatus := .pending
  metadata : Option String := none

/-- Modelled from the spec: a reasoning trace (spec §3 / utils.py lines 226-233). -/
structure Reasoning where
  id : String
  summaries : List String
  contents : List String

/-- Modelled from the spec: an assistant message (spec §3). -/
structure AIMessage where
  id : String
  content : String
  tool_call_requests : List ToolCallRequest := []
  reasoning : Option Reasoning := none

/-- Modelled from the spec: a user message carrying tool results back (spec §3). -/
structure UserMessage where
  content : String
  tool_results : List ToolResult := []

/-! ## Agent aggregator and tool execution (agent.py)

These definitions embed `src/mahindrabot/services/llm_service/agent.py`,
which is present in the sources and is the authority. -/

inductive StepStatus where
  | pending | done
deriving DecidableEq, Repr

/-- Embeds `AgentStep` (agent.py lines 54-68). -/
structure AgentStep where
  ai_message : AIMessage
  tool_results : List ToolResult
  status : StepStatus := .pending

/-- Embeds `AgentResponse` (agent.py lines 71-85). -/
structure AgentResponse where
  steps : List AgentStep := []
  final_message : Option AIMessage := none

/-- The fresh pending `ToolResult`s derived from a message's tool call
requests (agent.py lines 138-146, also 103-112). -/
def toolResultsOfRequests (reqs : List ToolCallRequest) : List ToolResult :=
  reqs.map (fun r =>
    { id := r.id, name := r.name, raw_input := r.raw_input, input := r.input })

/-- The step-update loop of `update_agent_response_with_ai_message`
(agent.py lines 148-153): update the first step whose originating message
identifier matches, in place; `none` if no step matches. -/
def updateFirstStep (steps : List AgentStep) (m : AIMessage) (trs : List ToolResult) :
    Option (List AgentStep) :=
  match steps with
  | [] => none
  | s :: rest =>
    if s.ai_message.id == m.id then
      some ({ s with ai_message := m, tool_results := trs } :: rest)
    else (updateFirstStep rest m trs).map (s :: ·)

/-- Embeds `update_agent_response_with_ai_message` (agent.py lines 116-158). -/
def update_agent_response_with_ai_message (agent_response : AgentResponse)
    (ai_message : AIMessage) : AgentResponse :=
  if ai_message.tool_call_requests.isEmpty then
    { agent_response with final_message := some ai_message }
  else
    let trs := toolResultsOfRequests ai_message.tool_call_requests
    match updateFirstStep agent_response.steps ai_message trs with
    | some steps' => { steps := steps', final_message := none }
    | none =>
      { steps := agent_response.steps ++ [{ ai_message := ai_message, tool_results := trs }],
        final_message := none }

/-- Embeds `ai_message_to_agent_response` (agent.py lines 88-113). -/
def ai_message_to_agent_response (ai_message : AIMessage) : AgentResponse :=
  if ai_message.tool_call_requests.isEmpty then
    { final_message := some ai_message }
  else
    { steps := [{ ai_message := ai_message,
                  tool_results := toolResultsOfRequests ai_message.tool_call_requests }] }

/-- Modelled from the spec: a registered tool callable (`tools.py` is not
under `src/`; modelled from spec §6's tool registry contract and the
dispatch in agent.py lines
184-198): either a plain function (one result, or an exception) or a
generator (a finite sequence of yielded values, optionally ending in an
exception).  Yielded/returned values are either `ToolOutput`s or values the
code coerces to text via `str(...)`. -/
inductive ToolCallable where
  | plain (f : JSONObj → Except String (ToolOutput ⊕ String))
  | gen (f : JSONObj → List (ToolOutput ⊕ String) × Option String)

/-- Coercion of a yielded value (agent.py lines 187-192): `ToolOutput`s pass
through, anything else becomes a success output of its text. -/
def coerceYield : ToolOutput ⊕ String → ToolOutput
  | .inl o => o
  | .inr s => { text := s, status := .success }

/-- The failure output produced from a caught exception message
(agent.py line 201). -/
def excOutput (e : String) : ToolOutput :=
  { text := "Error: " ++ e, status := .failure }

/-- The failure output for an unregistered tool (agent.py lines 178-182). -/
def notFoundOutput (tool_name : String) : ToolOutput :=
  { text := "Error: Tool " ++ pyQuote ++ tool_name ++ pyQuote ++ " not found.",
    status := .failure }

/-- Embeds `_execute_tool` (agent.py lines 161-201): the sequence of outputs the
generator yields.  Exceptions are modelled explicitly; the function itself
is total — it never propagates one. -/
def execute_tool (tool_func : Option ToolCallable) (tool_name : String)
    (tool_input : JSONObj) : List ToolOutput :=
  match tool_func with
  | none => [notFoundOutput tool_name]
  | some (.plain f) =>
    match f tool_input with
    | .ok r => [coerceYield r]
    | .error e => [excOutput e]
  | some (.gen f) =>
    let r := f tool_input
    r.1.map coerceYield ++ (match r.2 with | some e => [excOutput e] | none => [])

/-- The in-place mutation of one `ToolResult` by the tool-execution loop
(agent.py lines 227-233): each output overwrites output/status/metadata, so
the last output wins; with no outputs the result is untouched. -/
def runToolResult (name_to_tool : String → Option ToolCallable) (tr : ToolResult) :
    ToolResult :=
  match (execute_tool (name_to_tool tr.name) tr.name tr.input).getLast? with
  | some o => { tr with output := some o.text, status := o.status.toResult,
                        metadata := o.metadata }
  | none => tr

/-- One step processed by `execute_tool_calls` (agent.py lines 224-235):
steps already DONE are skipped; otherwise every tool result is executed and
the step is marked DONE. -/
def runStep (name_to_tool : String → Option ToolCallable) (s : AgentStep) : AgentStep :=
  if s.status == .done then s
  else { ai_message := s.ai_message,
         tool_results := s.tool_results.map (runToolResult name_to_tool),
         status := .done }

/-- Embeds `execute_tool_calls` (agent.py lines 204-236), final state: the updated
response and the synthesized user messages (one per previously-not-DONE
step, carrying that step's mutated tool results). -/
def execute_tool_calls (agent_response : AgentResponse)
    (name_to_tool : String → Option ToolCallable) :
    AgentResponse × List UserMessage :=
  ({ agent_response with steps := agent_response.steps.map (runStep name_to_tool) },
   (agent_response.steps.filter (fun s => !(s.status == .done))).map
     (fun s => { content := "",
                 tool_results := s.tool_results.map (runToolResult name_to_tool) }))

/-! ## OpenAI response tree and stream events (utils.py)

The response tree the assembler maintains (`openai.types.responses.Response`
restricted to the fields the sources read/write): a list of output items,
each a message (content parts), a function call (accumulating raw argument
text) or a reasoning block (summary/content text segments). -/

/-- A content part of a message item: either output text, or a part of
another type (whose `type` tag the translator reports when failing). -/
inductive ContentPart where
  | outputText (text : String)
  | other (partType : String)

/-- A reasoning summary/content segment (always carries text). -/
structure SummaryPart where
  text : String

inductive OutputItem where
  | message (content : List ContentPart)
  | functionCall (call_id : String) (name : String) (arguments : String)
  | reasoning (id : String) (summary : List SummaryPart) (content : List SummaryPart)

/-- The response tree (`Response`): identifier plus output items. -/
structure OAIResp where
  id : String
  output : List OutputItem

/-- The protocol stream events `add_event` dispatches on (utils.py lines
298-347).  `unknown` stands for any event whose `type` tag is none of the
recognized ones. -/
inductive StreamEvent where
  | created (response : OAIResp)
  | inProgress (response : OAIResp)
  | outputItemAdded (item : OutputItem)
  | contentPartAdded (output_index : Nat) (part : ContentPart)
  | reasoningSummaryPartAdded (output_index : Nat) (part : SummaryPart)
  | reasoningSummaryTextDelta (output_index : Nat) (summary_index : Nat) (delta : String)
  | reasoningSummaryTextDone (output_index : Nat) (summary_index : Nat) (text : String)
  | reasoningSummaryPartDone (output_index : Nat) (summary_index : Nat) (part : SummaryPart)
  | outputTextDelta (output_index : Nat) (content_index : Nat) (delta : String)
  | outputTextDone (output_index : Nat) (content_index : Nat) (text : String)
  | contentPartDone (output_index : Nat) (content_index : Nat) (part : ContentPart)
  | outputItemDone (output_index : Nat) (item : OutputItem)
  | functionCallArgumentsDelta (output_index : Nat) (delta : String)
  | functionCallArgumentsDone (output_index : Nat) (arguments : String)
  | completed (response : OAIResp)
  | unknown (eventType : String)

/-! List/item mutation helpers.  An `Except.error` models the Python
statement raising (IndexError on a bad index, an attribute error when an
item of the wrong shape is addressed). -/

def setIdx : List α → Nat → α → Except String (List α)
  | [], _, _ => .error "IndexError"
  | _ :: xs, 0, a => .ok (a :: xs)
  | x :: xs, n + 1, a => (setIdx xs n a).map (x :: ·)

def modifyIdx : List α → Nat → (α → Except String α) → Except String (List α)
  | [], _, _ => .error "IndexError"
  | x :: xs, 0, f => (f x).map (· :: xs)
  | x :: xs, n + 1, f => (modifyIdx xs n f).map (x :: ·)

def appendContent (p : ContentPart) : OutputItem → Except String OutputItem
  | .message ps => .ok (.message (ps ++ [p]))
  | _ => .error "AttributeError: content"

def appendSummary (p : SummaryPart) : OutputItem → Except String OutputItem
  | .reasoning rid su co => .ok (.reasoning rid (su ++ [p]) co)
  | _ => .error "AttributeError: summary"

def partAddDelta (delta : String) : ContentPart → Except String ContentPart
  | .outputText t => .ok (.outputText (t ++ delta))
  | .other _ => .error "AttributeError: text"

def partSetText (text : String) : ContentPart → Except String ContentPart
  | .outputText _ => .ok (.outputText text)
  | .other _ => .error "AttributeError: text"

def itemContentModify (j : Nat) (f : ContentPart → Except String ContentPart) :
    OutputItem → Except String OutputItem
  | .message ps => (modifyIdx ps j f).map .message
  | _ => .error "AttributeError: content"

def itemContentSet (j : Nat) (p : ContentPart) : OutputItem → Except String OutputItem
  | .message ps => (setIdx ps j p).map .message
  | _ => .error "AttributeError: content"

def itemSummaryModify (j : Nat) (f : SummaryPart → SummaryPart) :
    OutputItem → Except String OutputItem
  | .reasoning rid su co => (modifyIdx su j (fun s => .ok (f s))).map (.reasoning rid · co)
  | _ => .error "AttributeError: summary"

def itemSummarySet (j : Nat) (p : SummaryPart) : OutputItem → Except String OutputItem
  | .reasoning rid su co => (setIdx su j p).map (.reasoning rid · co)
  | _ => .error "AttributeError: summary"

def itemArgsDelta (delta : String) : OutputItem → Except String OutputItem
  | .functionCall cid nm args => .ok (.functionCall cid nm (args ++ delta))
  | _ => .error "AttributeError: arguments"

def itemArgsSet (args : String) : OutputItem → Except String OutputItem
  | .functionCall cid nm _ => .ok (.functionCall cid nm args)
  | _ => .error "AttributeError: arguments"

/-- Embeds `OAIStreamMessageBuilder` (utils.py lines 241-348): the in-progress
response tree (raising when read before initialization) plus the raw event
log. -/
structure OAIStreamMessageBuilder where
  resp : Option OAIResp := none
  events : List StreamEvent := []

/-- The `response` property (utils.py lines 264-277): raises when the
response has not been initialized yet. -/
def respOf : Option OAIResp → Except String OAIResp
  | none => .error "Response not initialized"
  | some r => .ok r

/-- Apply an update to the output-item list of the builder's current
response; a `self.response` access on an uninitialized builder or a failing
update raises. -/
def modOutput (b : OAIStreamMessageBuilder)
    (g : List OutputItem → Except String (List OutputItem)) :
    Except String OAIStreamMessageBuilder :=
  match b.resp with
  | none => .error "Response not initialized"
  | some r =>
    match g r.output with
    | .error e => .error e
    | .ok out => .ok { b with resp := some { r with output := out } }

/-- Embeds `OAIStreamMessageBuilder.add_event` (utils.py lines 279-348).  Note the
event is appended to the diagnostic log twice (lines 296-297).  An
`Except.error` models the call raising (including the `Unknown event type`
ValueError for an unrecognized event kind). -/
def OAIStreamMessageBuilder.add_event (b0 : OAIStreamMessageBuilder)
    (event : StreamEvent) : Except String OAIStreamMessageBuilder :=
  let b := { b0 with events := b0.events ++ [event, event] }
  match event with
  | .created r => .ok { b with resp := some r }
  | .inProgress r => .ok { b with resp := some r }
  | .outputItemAdded item => modOutput b (fun out => .ok (out ++ [item]))
  | .contentPartAdded i p => modOutput b (fun out => modifyIdx out i (appendContent p))
  | .reasoningSummaryPartAdded i p =>
    modOutput b (fun out => modifyIdx out i (appendSummary p))
  | .reasoningSummaryTextDelta i j delta =>
    modOutput b (fun out => modifyIdx out i (itemSummaryModify j
      (fun s => { s with text := s.text ++ delta })))
  | .reasoningSummaryTextDone i j text =>
    modOutput b (fun out => modifyIdx out i (itemSummaryModify j
      (fun s => { s with text := text })))
  | .reasoningSummaryPartDone i j p =>
    modOutput b (fun out => modifyIdx out i (itemSummarySet j p))
  | .outputTextDelta i j delta =>
    modOutput b (fun out => modifyIdx out i (itemContentModify j (partAddDelta delta)))
  | .outputTextDone i j text =>
    modOutput b (fun out => modifyIdx out i (itemContentModify j (partSetText text)))
  | .contentPartDone i j p =>
    modOutput b (fun out => modifyIdx out i (itemContentSet j p))
  | .outputItemDone i item => modOutput b (fun out => setIdx out i item)
  | .functionCallArgumentsDelta i delta =>
    modOutput b (fun out => modifyIdx out i (itemArgsDelta delta))
  | .functionCallArgumentsDone i args =>
    modOutput b (fun out => modifyIdx out i (itemArgsSet args))
  | .completed r => .ok { b with resp := some r }
  | .unknown ty => .error ("Unknown event type: " ++ ty)

/-! ## Message translator (`_get_ai_message_from_oai_response`, utils.py 159-238)

The Python function accepts either a chat-completion-shaped response (a
`choices` list, lines 178-201) or a response tree (an `output` list, lines
204-238).  The embedding threads the response through and returns it next
to the produced message, modelling the fact that every statement of the
source only reads the response: the returned tree is rebuilt from exactly
the fields that were read. -/

structure ChatFn where
  name : String
  arguments : String

structure ChatToolCall where
  id : String
  function : ChatFn

structure ChatMsg where
  content : Option String
  tool_calls : List ChatToolCall

structure Choice where
  message : ChatMsg

/-- The two response shapes the translator accepts. -/
inductive OAIResponseLike where
  | chat (id : String) (choices : List Choice)
  | resp (r : OAIResp)

/-- The parsed input coerced to an argument map (utils.py lines 190-191,
216-217): a non-`dict` parse result becomes the empty map. -/
def asObjMap : JSONVal → JSONObj
  | .obj m => m
  | _ => []

/-- Text-content accumulation over a message item's parts (utils.py lines
206-213): output text is concatenated; any other part type raises. -/
def translatePart (m : AIMessage) (p : ContentPart) :
    Except String (AIMessage × ContentPart) :=
  match p with
  | .outputText t => .ok ({ m with content := m.content ++ t }, .outputText t)
  | .other ty => .error ("Unknown content type: " ++ ty)

def translateParts (m : AIMessage) :
    List ContentPart → Except String (AIMessage × List ContentPart)
  | [] => .ok (m, [])
  | p :: ps => do
    let x ← translatePart m p
    let y ← translateParts x.1 ps
    .ok (y.1, x.2 :: y.2)

/-- One output item of the fallback branch (utils.py lines 205-236). -/
def translateItem (m : AIMessage) :
    OutputItem → Except String (AIMessage × OutputItem)
  | .message parts => (translateParts m parts).map (fun x => (x.1, .message x.2))
  | .functionCall cid nm args =>
    match parsePartialJson args with
    | .error e => .error e
    | .ok v =>
      .ok ({ m with tool_call_requests := m.tool_call_requests ++
               [{ id := cid, name := nm, raw_input := args, input := asObjMap v }] },
           .functionCall cid nm args)
  | .reasoning rid summ cont =>
    .ok ({ m with
           reasoning := some ⟨rid, summ.map SummaryPart.text, cont.map SummaryPart.text⟩ },
         .reasoning rid summ cont)

def translateItems (m : AIMessage) :
    List OutputItem → Except String (AIMessage × List OutputItem)
  | [] => .ok (m, [])
  | it :: its => do
    let x ← translateItem m it
    let y ← translateItems x.1 its
    .ok (y.1, x.2 :: y.2)

/-- The tool-call loop of the chat branch (utils.py lines 187-199). -/
def translateToolCalls (m : AIMessage) :
    List ChatToolCall → Except String (AIMessage × List ChatToolCall)
  | [] => .ok (m, [])
  | tc :: tcs =>
    match parsePartialJson tc.function.arguments with
    | .error e => .error e
    | .ok v =>
      (translateToolCalls
        { m with tool_call_requests := m.tool_call_requests ++
            [{ id := tc.id, name := tc.function.name,
               raw_input := tc.function.arguments, input := asObjMap v }] } tcs).map
        (fun x => (x.1, ⟨tc.id, ⟨tc.function.name, tc.function.arguments⟩⟩ :: x.2))

/-- Embeds `_get_ai_message_from_oai_response` (utils.py lines 159-238), with the
response threaded through (see section comment). -/
def get_ai_message_from_oai_response :
    OAIResponseLike → Except String (AIMessage × OAIResponseLike)
  | .chat rid choices =>
    match choices with
    | [] => .ok ({ id := rid, content := "" }, .chat rid [])
    | ch :: rest =>
      let m0 : AIMessage := { id := rid, content := ch.message.content.getD "" }
      (translateToolCalls m0 ch.message.tool_calls).map
        (fun x => (x.1, .chat rid ({ message := { content := ch.message.content,
                                                  tool_calls := x.2 } } :: rest)))
  | .resp r =>
    (translateItems { id := r.id, content := "" } r.output).map
      (fun x => (x.1, .resp { id := r.id, output := x.2 }))

/-- The translated message alone (what the callers consume). -/
def translateResponse (r : OAIResponseLike) : Except String AIMessage :=
  (get_ai_message_from_oai_response r).map (fun x => x.1)

/-- The content part at output index `i`, content index `j`. -/
def getPart (r : OAIResp) (i j : Nat) : Option ContentPart :=
  match r.output.get? i with
  | some (.message ps) => ps.get? j
  | _ => none

/-! ## Helper definitions for the verified properties -/

/-- Fold a list of stream events through `add_event`, stopping at the first
raised error (as the consuming loop in `core.py` would). -/
def runEvents (b : OAIStreamMessageBuilder) :
    List StreamEvent → Except String OAIStreamMessageBuilder
  | [] => .ok b
  | e :: es =>
    match b.add_event e with
    | .ok b' => runEvents b' es
    | .error err => .error err

/-- The internal message obtained by translating the builder's current
snapshot (the per-event re-translation the orchestrator performs). -/
def snapshotMessage (b : OAIStreamMessageBuilder) : Except String AIMessage :=
  match b.resp with
  | some r => translateResponse (.resp r)
  | none => .error "Response not initialized"

/-- The translated content after feeding an event sequence to a fresh
builder. -/
def contentAfterEvents (evs : List StreamEvent) : Except String String :=
  match runEvents { } evs with
  | .ok b => (snapshotMessage b).map AIMessage.content
  | .error e => .error e

/-- The steps of a turn originating from the assistant message with the
given identifier. -/
def stepsWithId (ar : AgentResponse) (i : String) : List AgentStep :=
  ar.steps.filter (fun s => s.ai_message.id == i)

/-- A sequence of aggregator updates folded over a turn. -/
def applyUpdates (ar : AgentResponse) (msgs : List AIMessage) : AgentResponse :=
  msgs.foldl update_agent_response_with_ai_message ar

/-- Whether `s` is a proper prefix of `d` (as strings of characters). -/
def StrPre (s d : String) : Prop :=
  ∃ t, t ≠ [] ∧ d.data = s.data ++ t

/-- The document's root value is an object or an array. -/
def rootIsContainer (d : String) : Bool :=
  match d.data.dropWhile (fun c => isJsonWs c) with
  | [] => false
  | c :: _ => c == '{' || c == '['

/-- The characters the repair step of `parse_partial_json` can drop from
the end of its input. -/
def droppable (c : Char) : Bool :=
  c == '"' || c == '\\' || c == 'u' || hexDig c

/-- Machine states from which the tolerant finalization always recovers a
value: the root value is finished, or some container is still open. -/
def goodS : MachineS → Prop
  | .done _ => True
  | .run stack _ => stack ≠ []

/-- The streaming scenario of spec §8: created, item added (one empty text
part), two text deltas, text done, completed (test fixture). -/
def c8events : List StreamEvent :=
  [.created ⟨"r1", []⟩,
   .outputItemAdded (.message [.outputText ""]),
   .outputTextDelta 0 0 "Hel",
   .outputTextDelta 0 0 "lo",
   .outputTextDone 0 0 "Hello",
   .completed ⟨"r1", [.message [.outputText "Hello"]]⟩]

/-- A concrete assistant message with one tool-call request (test fixture). -/
def msgC2 : AIMessage :=
  { id := "m1", content := "",
    tool_call_requests := [{ id := "c1", name := "t", raw_input := "", input := [] }] }

/-- A concrete pending step carrying one pending tool result (test fixture). -/
def stepC2 : AgentStep :=
  { ai_message := msgC2,
    tool_results := [{ id := "c1", name := "t", raw_input := "", input := [] }] }

/-- A concrete turn with that one pending step (test fixture). -/
def arC2 : AgentResponse := { steps := [stepC2] }

/-- A registry whose tool `t` is a generator yielding nothing (test fixture). -/
def regC2 : String → Option ToolCallable :=
  fun n => if n == "t" then some (.gen (fun _ => ([], none))) else none

/-- First streamed snapshot of a tool-calling message (test fixture). -/
def msgC3a : AIMessage :=
  { id := "x", content := "a",
    tool_call_requests := [{ id := "c1", name := "t", raw_input := "1", input := [] }] }

/-- Later snapshot of the same message: same identifier, grown data
(test fixture). -/
def msgC3b : AIMessage :=
  { id := "x", content := "ab",
    tool_call_requests := [{ id := "c2", name := "t2", raw_input := "12", input := [] }] }

/-! # Theorems -/

/-! ## C1: aggregator behavior on a message without tool calls -/

/-- C1 (counterexample): the claim states that updating a turn with an
assistant message carrying no tool-call requests removes any pending step
for that message identifier, so that step and final message never coexist.
At this concrete input the code sets the final message but keeps the step
for the same identifier, so the claim is false. -/
theorem c1_counterexample :
    (update_agent_response_with_ai_message
      (update_agent_response_with_ai_message { }
        { id := "m1", content := "",
          tool_call_requests := [{ id := "c1", name := "t", raw_input := "", input := [] }] })
      { id := "m1", content := "done" }).final_message =
        some { id := "m1", content := "done" } ∧
    (stepsWithId
      (update_agent_response_with_ai_message
        (update_agent_response_with_ai_message { }
          { id := "m1", content := "",
            tool_call_requests := [{ id := "c1", name := "t", raw_input := "", input := [] }] })
        { id := "m1", content := "done" }) "m1").length = 1 :=
  ⟨rfl, rfl⟩

/-- C1 (amended): updating a turn with an assistant message that carries no
tool-call requests sets that message as the turn's final message and leaves
the steps list untouched — pending steps for the same identifier are NOT
removed, so the turn can simultaneously contain such a step and the final
message. -/
theorem c1_amended (ar : AgentResponse) (m : AIMessage)
    (h : m.tool_call_requests = []) :
    (update_agent_response_with_ai_message ar m).final_message = some m ∧
    (update_agent_response_with_ai_message ar m).steps = ar.steps := by
  simp [update_agent_response_with_ai_message, h]

/-- C1 (witness for the amended theorem). -/
theorem c1_witness :
    (update_agent_response_with_ai_message
        { steps := [{ ai_message := { id := "m1", content := "" }, tool_results := [] }] }
        { id := "m1", content := "done" }).final_message =
      some { id := "m1", content := "done" } ∧
    (update_agent_response_with_ai_message
        { steps := [{ ai_message := { id := "m1", content := "" }, tool_results := [] }] }
        { id := "m1", content := "done" }).steps =
      ({ steps := [{ ai_message := { id := "m1", content := "" }, tool_results := [] }] }
        : AgentResponse).steps :=
  c1_amended _ _ rfl

/-! ## C2: tool execution coverage of a step's tool results -/

/-- C2 (counterexample): the claim states that after `execute_tool_calls`
every tool result of a previously pending step has status success or
failure.  With a registered generator tool that yields no outputs, the loop
body never assigns a status: the result stays pending even though the step
is marked DONE, so the claim is false. -/
theorem c2_counterexample :
    ((execute_tool_calls arC2 regC2).1.steps.map AgentStep.status = [.done]) ∧
    ((execute_tool_calls arC2 regC2).1.steps.map
      (fun s => s.tool_results.map ToolResult.status) = [[.pending]]) :=
  ⟨rfl, rfl⟩

/-- C2 (amended): after `execute_tool_calls`, every previously-not-DONE step
is replaced by its executed form, whose status is DONE; a tool result on
which execution produced at least one output ends with status success or
failure, but a tool result whose execution yields no outputs (a registered
generator yielding nothing) is left untouched — in particular still
pending. -/
theorem c2_amended (ar : AgentResponse) (ntt : String → Option ToolCallable) :
    (execute_tool_calls ar ntt).1.steps = ar.steps.map (runStep ntt) ∧
    ∀ s ∈ ar.steps, s.status ≠ .done →
      (runStep ntt s).status = .done ∧
      (runStep ntt s).tool_results = s.tool_results.map (runToolResult ntt) ∧
      ∀ tr ∈ s.tool_results,
        execute_tool (ntt tr.name) tr.name tr.input ≠ [] →
          (runToolResult ntt tr).status ≠ .pending := by
  refine ⟨rfl, ?_⟩
  intro s _ hs
  have hstat : (s.status == StepStatus.done) = false := by
    cases h : s.status
    · rfl
    · exact absurd h hs
  refine ⟨by simp [runStep, hstat], by simp [runStep, hstat], ?_⟩
  intro tr _ hne
  unfold runToolResult
  rcases hlast : (execute_tool (ntt tr.name) tr.name tr.input).getLast? with _ | o
  · exact absurd (List.getLast?_eq_none_iff.mp hlast) hne
  · cases ho : o.status <;> simp [hlast, ToolOutputStatus.toResult, ho]

/-- C2 (witness for the amended theorem): a concrete turn with one pending
step whose single tool result names an unregistered tool. -/
theorem c2_witness :
    (runStep (fun _ => none) stepC2).status = .done ∧
    (runToolResult (fun _ => none)
        { id := "c1", name := "t", raw_input := "", input := [] }).status ≠ .pending := by
  have h := (c2_amended { steps := [stepC2] } (fun _ => none)).2 stepC2
    (by simp) (by simp [stepC2])
  refine ⟨h.1, ?_⟩
  have h2 := h.2.2 { id := "c1", name := "t", raw_input := "", input := [] }
    (by simp [stepC2]) (by simp [execute_tool])
  exact h2

/-! ## C4: tool execution never propagates exceptions -/

/-- C4: `_execute_tool` is total (it returns an output list, never an
exception): an absent callable produces exactly one failure output whose
text says the tool was not found; a plain callable that raises produces
exactly one failure output carrying the exception's message; a generator
that raises after some yields produces the coerced yields followed by
exactly one failure output carrying the exception's message. -/
theorem c4_theorem :
    (∀ (nm : String) (inp : JSONObj),
      execute_tool none nm inp = [notFoundOutput nm] ∧
        (notFoundOutput nm).status = .failure ∧
        (notFoundOutput nm).text = "Error: Tool " ++ pyQuote ++ nm ++ pyQuote ++ " not found.") ∧
    (∀ (f : JSONObj → Except String (ToolOutput ⊕ String)) (nm : String) (inp : JSONObj)
       (e : String), f inp = .error e →
      execute_tool (some (.plain f)) nm inp = [excOutput e] ∧
        (excOutput e).status = .failure ∧ (excOutput e).text = "Error: " ++ e) ∧
    (∀ (g : JSONObj → List (ToolOutput ⊕ String) × Option String) (nm : String)
       (inp : JSONObj) (ys : List (ToolOutput ⊕ String)) (e : String),
      g inp = (ys, some e) →
      execute_tool (some (.gen g)) nm inp = ys.map coerceYield ++ [excOutput e]) := by
  refine ⟨fun nm inp => ⟨rfl, rfl, rfl⟩, fun f nm inp e hf => ?_, fun g nm inp ys e hg => ?_⟩
  · exact ⟨by simp [execute_tool, hf], rfl, rfl⟩
  · simp [execute_tool, hg]

/-- C4 (witness): the three clauses at concrete tools. -/
theorem c4_witness :
    (execute_tool none "lookup" [] = [notFoundOutput "lookup"]) ∧
    (execute_tool (some (.plain (fun _ => .error "boom"))) "t" [] = [excOutput "boom"]) ∧
    (execute_tool (some (.gen (fun _ => ([.inr "progress"], some "bang")))) "t" [] =
      [coerceYield (.inr "progress"), excOutput "bang"]) :=
  ⟨(c4_theorem.1 "lookup" []).1,
   (c4_theorem.2.1 (fun _ => .error "boom") "t" [] "boom" rfl).1,
   c4_theorem.2.2 (fun _ => ([.inr "progress"], some "bang")) "t" [] [.inr "progress"] "bang" rfl⟩

/-! ## C5: unknown stream event kinds are a hard error -/

/-- C5: for every builder state, `add_event` on a stream event whose kind is
not one of the recognized protocol event types raises (returns an error
naming the unknown type) — it is never a silent no-op. -/
theorem c5_theorem (b : OAIStreamMessageBuilder) (ty : String) :
    b.add_event (.unknown ty) = .error ("Unknown event type: " ++ ty) :=
  rfl

/-! ## Supporting lemmas about the builder -/

theorem modOutput_ok {b b' : OAIStreamMessageBuilder}
    {g : List OutputItem → Except String (List OutputItem)}
    (h : modOutput b g = .ok b') :
    b'.events = b.events ∧
    ∃ r out, b.resp = some r ∧ g r.output = .ok out ∧ b'.resp = some { r with output := out } := by
  unfold modOutput at h
  split at h
  · exact absurd h (by simp)
  · rename_i r hr
    split at h
    · exact absurd h (by simp)
    · rename_i out hg
      cases h
      exact ⟨rfl, r, out, hr, hg, rfl⟩

theorem add_event_events {b b' : OAIStreamMessageBuilder} {e : StreamEvent}
    (h : b.add_event e = .ok b') : b'.events = b.events ++ [e, e] := by
  cases e <;> simp only [OAIStreamMessageBuilder.add_event] at h <;>
    first
      | (cases h; rfl)
      | (exact (modOutput_ok h).1)
      | (exact absurd h (by simp))

theorem runEvents_length {evs : List StreamEvent} :
    ∀ {b b' : OAIStreamMessageBuilder}, runEvents b evs = .ok b' →
      b'.events.length = b.events.length + 2 * evs.length := by
  induction evs with
  | nil => intro b b' h; cases h; simp
  | cons e es ih =>
    intro b b' h
    unfold runEvents at h
    rcases ha : b.add_event e with err | b1 <;> rw [ha] at h
    · exact absurd h (by simp)
    · have h1 := ih h
      have h2 := add_event_events ha
      rw [h1, h2]
      simp
      ring

/-! ## C10: every event is logged twice -/

/-- C10: each successful `add_event` call appends the given event to the
builder's diagnostic `events` list twice (utils.py lines 296-297), so after
N successful calls the list has length 2·N, not N. -/
theorem c10_theorem (b : OAIStreamMessageBuilder) (evs : List StreamEvent) :
    (∀ (b' : OAIStreamMessageBuilder) (e : StreamEvent),
      b.add_event e = .ok b' → b'.events = b.events ++ [e, e]) ∧
    (∀ b' : OAIStreamMessageBuilder, runEvents b evs = .ok b' →
      b'.events.length = b.events.length + 2 * evs.length) :=
  ⟨fun _ _ h => add_event_events h, fun _ h => runEvents_length h⟩

/-- C10 (witness): two events fed to a fresh builder leave four entries in
the log. -/
theorem c10_witness :
    ∃ b', runEvents { } [.created ⟨"r", []⟩, .completed ⟨"r", []⟩] = .ok b' ∧
      b'.events.length = ({ } : OAIStreamMessageBuilder).events.length + 2 * 2 := by
  have h2 : runEvents { } [.created ⟨"r", []⟩, .completed ⟨"r", []⟩] =
      .ok ⟨some ⟨"r", []⟩, [.created ⟨"r", []⟩, .created ⟨"r", []⟩,
                           .completed ⟨"r", []⟩, .completed ⟨"r", []⟩]⟩ := by rfl
  exact ⟨_, h2,
    (c10_theorem { } [.created ⟨"r", []⟩, .completed ⟨"r", []⟩]).2 _ h2⟩

/-! ## C8: text deltas accumulate, text done replaces -/

theorem modifyIdx_ok_get {α : Type _} {l l' : List α} {n : Nat}
    {f : α → Except String α} (h : modifyIdx l n f = .ok l') :
    ∃ x x', l.get? n = some x ∧ f x = .ok x' ∧ l'.get? n = some x' := by
  induction l generalizing n l' with
  | nil => simp [modifyIdx] at h
  | cons a as ih =>
    cases n with
    | zero =>
      rcases hf : f a with e | x' <;> simp [modifyIdx, hf, Except.map] at h
      exact ⟨a, x', rfl, hf, by simp [← h]⟩
    | succ m =>
      rcases hm : modifyIdx as m f with e | l'' <;> simp [modifyIdx, hm, Except.map] at h
      obtain ⟨x, x', h1, h2, h3⟩ := ih hm
      exact ⟨x, x', by simpa using h1, h2, by rw [← h]; simpa using h3⟩

/-- C8: feeding the event sequence `created, item_added, text_delta("Hel"),
text_delta("lo"), text_done("Hello"), completed` to the assembler and
translating the snapshot after each event yields the contents "Hel",
"Hello", "Hello" and finally "Hello"; and in general, a text-done event
replaces the addressed part's accumulated text with the authoritative final
text (it does not append to it). -/
theorem c8_theorem :
    contentAfterEvents (c8events.take 3) = .ok "Hel" ∧
    contentAfterEvents (c8events.take 4) = .ok "Hello" ∧
    contentAfterEvents (c8events.take 5) = .ok "Hello" ∧
    contentAfterEvents c8events = .ok "Hello" ∧
    ∀ (b b' : OAIStreamMessageBuilder) (r : OAIResp) (i j : Nat) (t : String),
      b.resp = some r →
      b.add_event (.outputTextDone i j t) = .ok b' →
      ∃ r', b'.resp = some r' ∧ getPart r' i j = some (.outputText t) := by
  refine ⟨by rfl, by rfl, by rfl, by rfl, ?_⟩
  intro b b' r i j t hr h
  simp only [OAIStreamMessageBuilder.add_event] at h
  obtain ⟨-, r0, out, hr0, hg, hresp⟩ := modOutput_ok h
  obtain ⟨x, x', hx, hfx, hx'⟩ := modifyIdx_ok_get hg
  rcases x with ps | _ | _ <;> simp only [itemContentModify] at hfx
  · rcases hm : modifyIdx ps j (partSetText t) with e | ps' <;>
      rw [hm] at hfx <;> simp [Except.map] at hfx
    obtain ⟨p, p', hp, hpf, hp'⟩ := modifyIdx_ok_get hm
    rcases p with ptext | pty <;> simp only [partSetText] at hpf
    · cases hpf
      refine ⟨_, hresp, ?_⟩
      simp only [getPart, hx', ← hfx]
      exact hp'
    · exact absurd hpf (by simp)
  · exact absurd hfx (by simp)
  · exact absurd hfx (by simp)

/-- C8 (witness): the general replacement clause applied at a part holding
"old": the done event overwrites with "Hello" rather than appending. -/
theorem c8_witness :
    ∃ r', (⟨some ⟨"r1", [.message [.outputText "Hello"]]⟩,
            [.outputTextDone 0 0 "Hello", .outputTextDone 0 0 "Hello"]⟩ :
             OAIStreamMessageBuilder).resp = some r' ∧
      getPart r' 0 0 = some (.outputText "Hello") :=
  c8_theorem.2.2.2.2 ⟨some ⟨"r1", [.message [.outputText "old"]]⟩, []⟩ _
    ⟨"r1", [.message [.outputText "old"]]⟩ 0 0 "Hello" rfl (by rfl)

/-! ## C9: the translator is deterministic and side-effect-free -/

theorem exBindOk {α β ε : Type _} (a : α) (f : α → Except ε β) :
    Except.bind (.ok a) f = f a := rfl

theorem exBindErr {α β ε : Type _} (e : ε) (f : α → Except ε β) :
    Except.bind (.error e) f = .error e := rfl

theorem translateParts_id {ps : List ContentPart} :
    ∀ {m m' : AIMessage} {ps' : List ContentPart},
      translateParts m ps = .ok (m', ps') → ps' = ps := by
  induction ps with
  | nil => intro m m' ps' h; cases h; rfl
  | cons p ps ih =>
    intro m m' ps' h
    cases p with
    | outputText t =>
      simp only [translateParts, translatePart, bind, Except.bind] at h
      rcases hy : translateParts { m with content := m.content ++ t } ps with e | y <;>
        rw [hy] at h
      · exact absurd h (by simp)
      · cases h
        rw [ih hy]
    | other ty =>
      simp only [translateParts, translatePart, bind, Except.bind] at h
      exact absurd h (by simp)

theorem translateItem_id {it : OutputItem} {m m' : AIMessage} {it' : OutputItem}
    (h : translateItem m it = .ok (m', it')) : it' = it := by
  cases it with
  | message parts =>
    simp only [translateItem] at h
    rcases hp : translateParts m parts with e | x <;> rw [hp] at h <;>
      simp [Except.map] at h
    rw [← h.2, translateParts_id hp]
  | functionCall cid nm args =>
    simp only [translateItem] at h
    rcases hv : parsePartialJson args with e | v <;> rw [hv] at h
    · exact absurd h (by simp)
    · cases h; rfl
  | reasoning rid su co =>
    simp only [translateItem] at h
    cases h; rfl

theorem translateItems_id {its : List OutputItem} :
    ∀ {m m' : AIMessage} {its' : List OutputItem},
      translateItems m its = .ok (m', its') → its' = its := by
  induction its with
  | nil => intro m m' its' h; cases h; rfl
  | cons it its ih =>
    intro m m' its' h
    simp only [translateItems, bind] at h
    rcases hx : translateItem m it with e | x <;>
      simp only [hx, exBindOk, exBindErr] at h
    · exact absurd h (by simp)
    · rcases hy : translateItems x.1 its with e | y <;>
        simp only [hy, exBindOk, exBindErr] at h
      · exact absurd h (by simp)
      · cases h
        rw [ih hy, translateItem_id hx]

theorem translateToolCalls_id {tcs : List ChatToolCall} :
    ∀ {m m' : AIMessage} {tcs' : List ChatToolCall},
      translateToolCalls m tcs = .ok (m', tcs') → tcs' = tcs := by
  induction tcs with
  | nil => intro m m' tcs' h; cases h; rfl
  | cons tc tcs ih =>
    intro m m' tcs' h
    simp only [translateToolCalls] at h
    rcases hv : parsePartialJson tc.function.arguments with e | v <;>
      simp only [hv] at h
    · exact absurd h (by simp)
    · rcases hy : translateToolCalls
          { m with tool_call_requests := m.tool_call_requests ++
              [{ id := tc.id, name := tc.function.name,
                 raw_input := tc.function.arguments, input := asObjMap v }] } tcs
          with e | y <;> simp only [hy, Except.map] at h
      · exact absurd h (by simp)
      · cases h
        rw [ih hy]

/-- C9: the message translator is deterministic and side-effect-free on its
input: a successful translation leaves the response snapshot unchanged (the
threaded-through tree equals the input), and translating the same snapshot
again yields the identical internal message. -/
theorem c9_theorem (r : OAIResponseLike) (m : AIMessage) (r1 : OAIResponseLike)
    (h : get_ai_message_from_oai_response r = .ok (m, r1)) :
    r1 = r ∧ get_ai_message_from_oai_response r1 = .ok (m, r1) := by
  have hid : r1 = r := by
    cases r with
    | chat rid choices =>
      cases choices with
      | nil => cases h; rfl
      | cons ch rest =>
        simp only [get_ai_message_from_oai_response] at h
        rcases htc : translateToolCalls
            { id := rid, content := ch.message.content.getD "" }
            ch.message.tool_calls with e | x <;> rw [htc] at h <;>
          simp [Except.map] at h
        rw [← h.2, translateToolCalls_id htc]
    | resp r0 =>
      simp only [get_ai_message_from_oai_response] at h
      rcases hti : translateItems { id := r0.id, content := "" } r0.output with e | x <;>
        rw [hti] at h <;> simp [Except.map] at h
      rw [← h.2, translateItems_id hti]
  subst hid
  exact ⟨rfl, h⟩

/-- C9 (witness): a concrete snapshot translated twice. -/
theorem c9_witness :
    get_ai_message_from_oai_response (.resp ⟨"r1", [.message [.outputText "hi"]]⟩) =
      .ok ({ id := "r1", content := "hi" }, .resp ⟨"r1", [.message [.outputText "hi"]]⟩) ∧
    get_ai_message_from_oai_response (.resp ⟨"r1", [.message [.outputText "hi"]]⟩) =
      .ok ({ id := "r1", content := "hi" }, .resp ⟨"r1", [.message [.outputText "hi"]]⟩) := by
  have h : get_ai_message_from_oai_response (.resp ⟨"r1", [.message [.outputText "hi"]]⟩) =
      .ok ({ id := "r1", content := "hi" }, .resp ⟨"r1", [.message [.outputText "hi"]]⟩) := by
    rfl
  exact ⟨h, (c9_theorem _ _ _ h).2⟩

/-! ## C7: decoding of function-call argument text -/

/-- C7 (counterexample): the claim states translation never raises on
account of the argument text, whatever string it contains.  With argument
text `}` the tolerant parse itself raises (it is malformed from the first
character, not merely truncated), and translation propagates that error
instead of emitting an empty argument map. -/
theorem c7_counterexample :
    parsePartialJson "\x7d" = .error "jiter: malformed JSON" ∧
    translateResponse (.resp ⟨"r1", [.functionCall "c1" "t" "\x7d"]⟩) =
      .error "jiter: malformed JSON" :=
  ⟨rfl, rfl⟩

/-- C7 (amended): for a function-call item whose raw argument text parses
tolerantly to a value, translation (on either accepted response shape)
emits exactly one Tool Call Request whose decoded argument map is that
value when it is a JSON object and the empty map otherwise (in particular
for the empty-string sentinel); only when the tolerant parse itself raises
does translation propagate an error. -/
theorem c7_amended (rid cid nm args : String) (v : JSONVal)
    (h : parsePartialJson args = .ok v) :
    translateResponse (.resp ⟨rid, [.functionCall cid nm args]⟩) =
      .ok { id := rid, content := "",
            tool_call_requests := [{ id := cid, name := nm, raw_input := args,
                                     input := asObjMap v }] } ∧
    translateResponse (.chat rid [⟨⟨none, [⟨cid, ⟨nm, args⟩⟩]⟩⟩]) =
      .ok { id := rid, content := "",
            tool_call_requests := [{ id := cid, name := nm, raw_input := args,
                                     input := asObjMap v }] } := by
  constructor <;>
    simp [translateResponse, get_ai_message_from_oai_response, translateItems,
          translateItem, translateToolCalls, h, bind, exBindOk, Except.map, Option.getD]

/-- C7 (witness): a truncated but parseable argument text decodes to its
object prefix on both response shapes. -/
theorem c7_witness :
    translateResponse (.resp ⟨"r1", [.functionCall "c1" "t" "\x7b\"a\": 1"]⟩) =
      .ok { id := "r1", content := "",
            tool_call_requests :=
              [{ id := "c1", name := "t", raw_input := "\x7b\"a\": 1",
                 input := asObjMap (.obj [("a", .num "1")]) }] } ∧
    translateResponse (.chat "r1" [⟨⟨none, [⟨"c1", ⟨"t", "\x7b\"a\": 1"⟩⟩]⟩⟩]) =
      .ok { id := "r1", content := "",
            tool_call_requests :=
              [{ id := "c1", name := "t", raw_input := "\x7b\"a\": 1",
                 input := asObjMap (.obj [("a", .num "1")]) }] } :=
  c7_amended "r1" "c1" "t" "\x7b\"a\": 1" (.obj [("a", .num "1")]) (by rfl)

/-! ## C3: aggregator identity stability -/

theorem updateFirstStep_none {steps : List AgentStep} {m : AIMessage}
    {trs : List ToolResult} (h : updateFirstStep steps m trs = none) :
    ∀ s ∈ steps, (s.ai_message.id == m.id) = false := by
  induction steps with
  | nil => intro s hs; exact absurd hs (by simp)
  | cons s rest ih =>
    intro s' hs'
    simp only [updateFirstStep] at h
    rcases hid : (s.ai_message.id == m.id) with _ | _ <;> simp only [hid] at h
    · rcases List.mem_cons.mp hs' with rfl | hmem
      · exact hid
      · rcases hr : updateFirstStep rest m trs with _ | v
        · exact ih hr s' hmem
        · rw [hr] at h; exact absurd h (by simp)
    · exact absurd h (by simp)

theorem updateFirstStep_some {m : AIMessage} {trs : List ToolResult} :
    ∀ {steps steps' : List AgentStep},
      updateFirstStep steps m trs = some steps' →
      (steps.filter (fun s => s.ai_message.id == m.id)).length ≤ 1 →
      ∃ st, steps'.filter (fun s => s.ai_message.id == m.id) = [st] ∧
        st.ai_message = m ∧ st.tool_results = trs := by
  intro steps
  induction steps with
  | nil => intro steps' h; exact absurd h (by simp [updateFirstStep])
  | cons s rest ih =>
    intro steps' h hle
    simp only [updateFirstStep] at h
    rcases hid : (s.ai_message.id == m.id) with _ | _ <;> simp only [hid] at h
    · rcases hr : updateFirstStep rest m trs with _ | rest' <;> rw [hr] at h
      · exact absurd h (by simp)
      · simp only [Option.map_some'] at h
        cases h
        rw [List.filter_cons_of_neg (by simp [hid])] at hle
        obtain ⟨st, hf, hm, ht⟩ := ih hr hle
        refine ⟨st, ?_, hm, ht⟩
        rw [List.filter_cons_of_neg (by simp [hid])]
        exact hf
    · cases h
      rw [List.filter_cons_of_pos (by simp [hid])] at hle
      have hrest : rest.filter (fun s => s.ai_message.id == m.id) = [] := by
        have h0 : (rest.filter (fun s => s.ai_message.id == m.id)).length = 0 := by
          simp only [List.length_cons] at hle
          omega
        exact List.length_eq_zero.mp h0
      refine ⟨{ s with ai_message := m, tool_results := trs }, ?_, rfl, rfl⟩
      rw [List.filter_cons_of_pos (by simp)]
      rw [hrest]

theorem update_with_calls_stepsWithId {ar : AgentResponse} {m : AIMessage}
    (hm : m.tool_call_requests ≠ [])
    (hle : (stepsWithId ar m.id).length ≤ 1) :
    ∃ st : AgentStep,
      stepsWithId (update_agent_response_with_ai_message ar m) m.id = [st] ∧
      st.ai_message = m ∧
      st.tool_results = toolResultsOfRequests m.tool_call_requests := by
  have hempty : m.tool_call_requests.isEmpty = false := by
    rcases h : m.tool_call_requests with _ | _
    · exact absurd h hm
    · rfl
  unfold update_agent_response_with_ai_message
  simp only [hempty, Bool.false_eq_true, if_false]
  rcases hu : updateFirstStep ar.steps m (toolResultsOfRequests m.tool_call_requests)
      with _ | steps'
  · have hnone := updateFirstStep_none hu
    have hfil : ar.steps.filter (fun s => s.ai_message.id == m.id) = [] :=
      List.filter_eq_nil_iff.mpr (fun s hs => by simp [hnone s hs])
    refine ⟨{ ai_message := m,
              tool_results := toolResultsOfRequests m.tool_call_requests }, ?_, rfl, rfl⟩
    simp [stepsWithId, List.filter_append, hfil]
  · exact updateFirstStep_some hu hle

/-- C3: folding a sequence of aggregator updates whose messages all share
one identifier and all carry tool-call requests over a turn holding at most
one step for that identifier leaves exactly one step for it, and that
step's message and tool results are the ones derived from the last update
of the sequence. -/
theorem c3_theorem (ar : AgentResponse) (theId : String) (msgs : List AIMessage)
    (mlast : AIMessage)
    (h1 : msgs.getLast? = some mlast)
    (h2 : ∀ m ∈ msgs, m.id = theId ∧ m.tool_call_requests ≠ [])
    (h3 : (stepsWithId ar theId).length ≤ 1) :
    ∃ st, stepsWithId (applyUpdates ar msgs) theId = [st] ∧
      st.ai_message = mlast ∧
      st.tool_results = toolResultsOfRequests mlast.tool_call_requests := by
  induction msgs generalizing ar with
  | nil => exact absurd h1 (by simp)
  | cons m rest ih =>
    obtain ⟨hid, hcalls⟩ := h2 m (by simp)
    have hstep : ∃ st : AgentStep,
        stepsWithId (update_agent_response_with_ai_message ar m) theId = [st] ∧
        st.ai_message = m ∧
        st.tool_results = toolResultsOfRequests m.tool_call_requests := by
      rw [← hid]
      exact update_with_calls_stepsWithId hcalls (by rw [hid]; exact h3)
    obtain ⟨st0, hst0, hst0m, hst0t⟩ := hstep
    cases rest with
    | nil =>
      have : m = mlast := by simpa using h1
      subst this
      exact ⟨st0, by simpa [applyUpdates] using hst0, hst0m, hst0t⟩
    | cons r rs =>
      have h1' : (r :: rs).getLast? = some mlast := by
        rw [← h1]; exact (List.getLast?_cons_cons ..).symm
      have h2' : ∀ x ∈ r :: rs, x.id = theId ∧ x.tool_call_requests ≠ [] :=
        fun x hx => h2 x (List.mem_cons_of_mem _ hx)
      have h3' : (stepsWithId (update_agent_response_with_ai_message ar m) theId).length ≤ 1 := by
        rw [hst0]; simp
      have := ih (update_agent_response_with_ai_message ar m) h1' h2' h3'
      simpa [applyUpdates] using this

/-- C3 (witness): two successive snapshots of one tool-calling message
folded into an empty turn. -/
theorem c3_witness :
    ∃ st, stepsWithId (applyUpdates { } [msgC3a, msgC3b]) "x" = [st] ∧
      st.ai_message = msgC3b ∧
      st.tool_results = toolResultsOfRequests msgC3b.tool_call_requests := by
  refine c3_theorem { } "x" [msgC3a, msgC3b] msgC3b (by rfl) ?_ (by simp [stepsWithId])
  intro m hm
  rcases List.mem_cons.mp hm with rfl | hm2
  · exact ⟨rfl, by simp [msgC3a]⟩
  · rcases List.mem_cons.mp hm2 with rfl | hm3
    · exact ⟨rfl, by simp [msgC3b]⟩
    · exact absurd hm3 (by simp)

/-! ## C6: supporting lemmas on the parsing machine -/

theorem runFrom_cons (s : Option MachineS) (c : Char) (l : List Char) :
    runFrom s (c :: l) = runFrom (stepO s c) l := rfl

theorem runFrom_none : ∀ l : List Char, runFrom none l = none := by
  intro l
  induction l with
  | nil => rfl
  | cons c l ih => simpa [runFrom_cons, stepO] using ih

theorem runFrom_append (s : Option MachineS) (xs ys : List Char) :
    runFrom s (xs ++ ys) = runFrom (runFrom s xs) ys :=
  List.foldl_append ..

theorem runFrom_isSome_of_append {s : Option MachineS} {xs ys : List Char}
    {st : MachineS} (h : runFrom s (xs ++ ys) = some st) :
    ∃ st', runFrom s xs = some st' := by
  rw [runFrom_append] at h
  rcases hx : runFrom s xs with _ | st'
  · rw [hx, runFrom_none] at h
    exact absurd h (by simp)
  · exact ⟨st', rfl⟩

theorem pushVal_good {stack : List Frame} {v : JSONVal} {s' : MachineS}
    (h : pushVal stack v = some s') : goodS s' := by
  cases stack with
  | nil => cases h; trivial
  | cons f fs =>
    cases f with
    | arrF ds => cases h; simp [goodS]
    | objF ds pk =>
      cases pk with
      | none => exact absurd h (by simp [pushVal])
      | some k => cases h; simp [goodS]

theorem stepAfterVal_good {stack : List Frame} {c : Char} {s' : MachineS}
    (hne : stack ≠ []) (h : stepAfterVal stack c = some s') : goodS s' := by
  unfold stepAfterVal at h
  repeat' split at h
  all_goals
    first
      | (cases h; exact hne)
      | exact pushVal_good h
      | exact absurd h (by simp)

theorem startValue_good {stack : List Frame} {c : Char} {s' : MachineS}
    (hne : stack ≠ []) (h : startValue stack c = some s') : goodS s' := by
  unfold startValue at h
  by_cases hws : isJsonWs c = true
  · rw [if_pos hws] at h; cases h; exact hne
  · rw [if_neg hws] at h
    by_cases hq : (c == '"') = true
    · rw [if_pos hq] at h; cases h; exact hne
    · rw [if_neg hq] at h
      by_cases hb : (c == '{') = true
      · rw [if_pos hb] at h; cases h; simp [goodS]
      · rw [if_neg hb] at h
        by_cases hk : (c == '[') = true
        · rw [if_pos hk] at h; cases h; simp [goodS]
        · rw [if_neg hk] at h
          repeat' split at h
          all_goals
            first
              | (cases h; exact hne)
              | exact pushVal_good h
              | exact absurd h (by simp)

theorem numFinish_good {stack : List Frame} {accRev : List Char} {c : Char}
    {s' : MachineS} (h : numFinish stack accRev c = some s') : goodS s' := by
  unfold numFinish at h
  rcases hp : pushVal stack (.num (String.mk accRev.reverse)) with _ | s0 <;>
    rw [hp] at h
  · exact absurd h (by simp)
  · cases s0 with
    | run stack' m => exact stepAfterVal_good (pushVal_good hp) h
    | done v =>
      split_ifs at h
      cases h; trivial

theorem stepNum_good {stack : List Frame} {accRev : List Char} {st : NumState}
    {c : Char} {s' : MachineS} (hne : stack ≠ [])
    (h : stepNum stack accRev st c = some s') : goodS s' := by
  cases st <;> simp only [stepNum] at h <;> repeat' split at h
  all_goals
    first
      | (cases h; exact hne)
      | exact numFinish_good h
      | exact absurd h (by simp)

theorem step_good {s : MachineS} {c : Char} {s' : MachineS}
    (hg : goodS s) (h : step s c = some s') : goodS s' := by
  cases s with
  | done v =>
    simp only [step] at h
    split_ifs at h
    cases h; trivial
  | run stack mode =>
    have hne : stack ≠ [] := hg
    cases mode with
    | mValue => exact startValue_good hne h
    | mAfterVal => exact stepAfterVal_good hne h
    | mNum accRev st => exact stepNum_good hne h
    | _ =>
      simp only [step] at h
      repeat' split at h
      all_goals
        first
          | (cases h; exact hne)
          | (cases h; simp [goodS])
          | exact pushVal_good h
          | exact absurd h (by simp)

theorem runFrom_good : ∀ (l : List Char) {s s' : MachineS},
    goodS s → runFrom (some s) l = some s' → goodS s' := by
  intro l
  induction l with
  | nil => intro s s' hg h; cases h; exact hg
  | cons c l ih =>
    intro s s' hg h
    rw [runFrom_cons] at h
    rcases hs : step s c with _ | s1
    · rw [show stepO (some s) c = none from by simp [stepO, hs], runFrom_none] at h
      exact absurd h (by simp)
    · rw [show stepO (some s) c = some s1 from by simp [stepO, hs]] at h
      exact ih (step_good hg hs) h

theorem unwind_some : ∀ (fs : List Frame) (v : JSONVal),
    ∃ w, unwind fs (some v) = some w := by
  intro fs
  induction fs with
  | nil => intro v; exact ⟨v, rfl⟩
  | cons f fs ih =>
    intro v
    cases f with
    | arrF ds => exact ih _
    | objF ds pk => cases pk <;> exact ih _

theorem finalizeTol_good {st : MachineS} (hg : goodS st) :
    ∃ v, finalizeTol st = some v := by
  cases st with
  | done v => exact ⟨v, rfl⟩
  | run stack mode =>
    cases stack with
    | nil => exact absurd rfl hg
    | cons f fs =>
      cases f with
      | arrF ds => exact unwind_some fs _
      | objF ds pk => exact unwind_some fs _

theorem isPyWs_of_isJsonWs {c : Char} (h : isJsonWs c = true) : isPyWs c = true := by
  simp [isPyWs, h]

theorem runFrom_ws : ∀ (wl : List Char), (∀ c ∈ wl, isJsonWs c = true) →
    runFrom (some initS) wl = some initS := by
  intro wl
  induction wl with
  | nil => intro _; rfl
  | cons c l ih =>
    intro hws
    have hc := hws c (by simp)
    rw [runFrom_cons, show stepO (some initS) c = some initS from by
      simp [stepO, initS, step, startValue, hc]]
    exact ih (fun x hx => hws x (by simp [hx]))

theorem droppable_hex {a : Char} (h : hexDig a = true) : droppable a = true := by
  simp [droppable, h]

theorem getElem?_some_droppable {r : List Char} {i : Nat} {c u : Char}
    (h : (r[i]? == some u) = true) (hi : r[i]? = some c) (hd : droppable u = true) :
    droppable c = true := by
  have : r[i]? = some u := by simpa using h
  rw [this] at hi
  cases hi
  exact hd

theorem getElem?_some_hex {r : List Char} {i : Nat} {c : Char}
    (h : optHex r[i]? = true) (hi : r[i]? = some c) : droppable c = true := by
  rw [hi] at h
  exact droppable_hex h

theorem length_le_of_getElem?_eq_some {r : List Char} {i : Nat} {u : Char}
    (h : (r[i]? == some u) = true) : i + 1 ≤ r.length := by
  have h' : r[i]? = some u := by simpa using h
  obtain ⟨hlt, -⟩ := List.getElem?_eq_some.mp h'
  omega

theorem mem_take_getElem? {r : List Char} {k : Nat} {c : Char}
    (hc : c ∈ r.take k) : ∃ i, i < k ∧ r[i]? = some c := by
  obtain ⟨i, hi⟩ := List.mem_iff_getElem?.mp hc
  have hik : i < k := by
    obtain ⟨hlen, -⟩ := List.getElem?_eq_some.mp hi
    rw [List.length_take] at hlen
    omega
  rw [List.getElem?_take_of_lt hik] at hi
  exact ⟨i, hik, hi⟩

theorem uniDrop_spec (r : List Char) :
    uniDrop r ≤ r.length ∧ ∀ c ∈ r.take (uniDrop r), droppable c = true := by
  unfold uniDrop
  split_ifs with h1 h2 hx1 h3 hx2 h4 hx3
  · rw [Bool.and_eq_true] at h1
    refine ⟨length_le_of_getElem?_eq_some h1.2, ?_⟩
    intro c hc
    obtain ⟨i, hik, hi⟩ := mem_take_getElem? hc
    interval_cases i
    · exact getElem?_some_droppable h1.1 hi rfl
    · exact getElem?_some_droppable h1.2 hi rfl
  · rw [Bool.and_eq_true] at h2
    refine ⟨length_le_of_getElem?_eq_some h2.2, ?_⟩
    intro c hc
    obtain ⟨i, hik, hi⟩ := mem_take_getElem? hc
    interval_cases i
    · exact getElem?_some_hex hx1 hi
    · exact getElem?_some_droppable h2.1 hi rfl
    · exact getElem?_some_droppable h2.2 hi rfl
  · exact ⟨by simp, by simp⟩
  · rw [Bool.and_eq_true] at h3
    rw [Bool.and_eq_true] at hx2
    refine ⟨length_le_of_getElem?_eq_some h3.2, ?_⟩
    intro c hc
    obtain ⟨i, hik, hi⟩ := mem_take_getElem? hc
    interval_cases i
    · exact getElem?_some_hex hx2.1 hi
    · exact getElem?_some_hex hx2.2 hi
    · exact getElem?_some_droppable h3.1 hi rfl
    · exact getElem?_some_droppable h3.2 hi rfl
  · exact ⟨by simp, by simp⟩
  · rw [Bool.and_eq_true] at h4
    rw [Bool.and_eq_true, Bool.and_eq_true] at hx3
    refine ⟨length_le_of_getElem?_eq_some h4.2, ?_⟩
    intro c hc
    obtain ⟨i, hik, hi⟩ := mem_take_getElem? hc
    interval_cases i
    · exact getElem?_some_hex hx3.1.1 hi
    · exact getElem?_some_hex hx3.1.2 hi
    · exact getElem?_some_hex hx3.2 hi
    · exact getElem?_some_droppable h4.1 hi rfl
    · exact getElem?_some_droppable h4.2 hi rfl
  · exact ⟨by simp, by simp⟩
  · exact ⟨by simp, by simp⟩

theorem dropCountR_spec (r : List Char) :
    dropCountR r ≤ r.length ∧ ∀ c ∈ r.take (dropCountR r), droppable c = true := by
  rcases r with _ | ⟨c, rest⟩
  · exact ⟨by simp [dropCountR], by simp [dropCountR]⟩
  · by_cases h1 : (c == '"') = true
    · have hc : c = '"' := by simpa using h1
      subst hc
      rcases rest with _ | ⟨p, rest'⟩
      · refine ⟨by simp [dropCountR], ?_⟩
        intro x hx
        simp [dropCountR] at hx
        subst hx; rfl
      · by_cases h2 : (p == '\\' || p == ':') = true
        · rw [show dropCountR ('"' :: p :: rest') = 0 from by simp [dropCountR, h2]]
          exact ⟨by simp, by simp⟩
        · rw [show dropCountR ('"' :: p :: rest') = 1 from by simp [dropCountR, h2]]
          refine ⟨by simp, ?_⟩
          intro x hx
          rcases List.mem_cons.mp hx with rfl | hx2
          · rfl
          · exact absurd hx2 (by simp)
    · by_cases h3 : (c == '\\') = true
      · have hc : c = '\\' := by simpa using h3
        subst hc
        rcases rest with _ | ⟨p, rest'⟩
        · refine ⟨by simp [dropCountR], ?_⟩
          intro x hx
          simp [dropCountR] at hx
          subst hx; rfl
        · by_cases h4 : (p == '\\') = true
          · rw [show dropCountR ('\\' :: p :: rest') = 0 from by simp [dropCountR, h4]]
            exact ⟨by simp, by simp⟩
          · rw [show dropCountR ('\\' :: p :: rest') = 1 from by simp [dropCountR, h4]]
            refine ⟨by simp, ?_⟩
            intro x hx
            rcases List.mem_cons.mp hx with rfl | hx2
            · rfl
            · exact absurd hx2 (by simp)
      · rw [show dropCountR (c :: rest) = uniDrop (c :: rest) from by
          simp [dropCountR, h1, h3]]
        exact uniDrop_spec (c :: rest)

theorem repairData_spec (l : List Char) :
    ∃ n, repairData l = l.take n ∧ ∀ c ∈ l.drop n, droppable c = true := by
  refine ⟨l.length - dropCountR l.reverse, rfl, ?_⟩
  intro c hc
  refine (dropCountR_spec l.reverse).2 c ?_
  rw [List.take_reverse]
  rw [List.mem_reverse]
  exact hc

theorem validJson_runM {d : String} (hv : validJson d = true) :
    ∃ st, runM d.data = some st := by
  unfold validJson at hv
  rcases h : runM d.data with _ | st
  · rw [h] at hv; exact absurd hv (by simp)
  · exact ⟨st, rfl⟩

/-! ## C6: the claim and its settlement -/

/-- C6 (counterexample): the claim states `parse_partial_json` never raises
on any proper prefix of a valid JSON document.  The single character `"` is
a proper prefix of the valid document `"a"`, but the repair step drops the
trailing quote, leaving the empty string, whose parse raises — so as stated
the claim is false (root-scalar documents admit raising prefixes). -/
theorem c6_counterexample :
    validJson "\"a\"" = true ∧
    StrPre "\"" "\"a\"" ∧
    parsePartialJson "\"" = .error "jiter: EOF while parsing a value" :=
  ⟨rfl, ⟨['a', '"'], by simp, rfl⟩, rfl⟩

/-- C6 (amended): empty or whitespace-only input returns the empty-string
sentinel (not null, not an error); and for every proper prefix `s` of a
syntactically valid JSON document whose root value is an object or array
(the shape of every tool-call argument document), `parse_partial_json s`
never raises: it returns a value. -/
theorem c6_amended (d s : String)
    (hv : validJson d = true) (hroot : rootIsContainer d = true)
    (hpre : StrPre s d) :
    (∀ s0 : String, s0.data.all isPyWs = true → parsePartialJson s0 = .ok (.str "")) ∧
    ∃ v, parsePartialJson s = .ok v := by
  refine ⟨fun s0 h0 => by simp [parsePartialJson, h0], ?_⟩
  obtain ⟨t, htne, hd⟩ := hpre
  by_cases hws : s.data.all isPyWs = true
  · exact ⟨.str "", by simp [parsePartialJson, hws]⟩
  · set w := d.data.takeWhile (fun c => isJsonWs c) with hw
    have hwall : ∀ c ∈ w, isJsonWs c = true := fun c hc => by
      simpa using List.mem_takeWhile_imp hc
    have hsplit : w ++ d.data.dropWhile (fun c => isJsonWs c) = d.data :=
      List.takeWhile_append_dropWhile _ _
    unfold rootIsContainer at hroot
    rcases hdw : d.data.dropWhile (fun c => isJsonWs c) with _ | ⟨br, t0⟩
    · rw [hdw] at hroot
      exact absurd hroot (by simp)
    · rw [hdw] at hroot
      have hbr : br = '{' ∨ br = '[' := by
        simpa using hroot
      have heq : s.data ++ t = w ++ (br :: t0) := by
        rw [← hd]
        rw [hdw] at hsplit
        rw [hsplit]
      have hsd : ∃ t1, s.data = w ++ br :: t1 := by
        rcases List.append_eq_append_iff.mp heq with ⟨a', ha1, _⟩ | ⟨c', hc1, hc2⟩
        · exfalso
          apply hws
          rw [List.all_eq_true]
          intro x hx
          exact isPyWs_of_isJsonWs (hwall x (by rw [ha1]; exact List.mem_append_left _ hx))
        · rcases c' with _ | ⟨br', t1⟩
          · exfalso
            apply hws
            rw [List.all_eq_true]
            intro x hx
            refine isPyWs_of_isJsonWs (hwall x ?_)
            rw [hc1] at hx
            simpa using hx
          · rw [List.cons_append] at hc2
            injection hc2 with e1 e2
            exact ⟨t1, by rw [hc1, ← e1]⟩
      obtain ⟨t1, hsd⟩ := hsd
      obtain ⟨n, hrep, hdropp⟩ := repairData_spec s.data
      have hn : w.length + 1 ≤ n := by
        by_contra hnn
        push_neg at hnn
        have hbrmem : br ∈ s.data.drop n := by
          rw [hsd, List.drop_append_eq_append_drop]
        
          rw [show n - w.length = 0 from by omega]
          simp
        have hbad := hdropp br hbrmem
        rcases hbr with rfl | rfl <;> simp [droppable, hexDig] at hbad
      have hshape : repairData s.data = w ++ br :: t1.take (n - w.length - 1) := by
        rw [hrep, hsd, List.take_append_eq_append_take]
        rw [List.take_of_length_le (by omega : w.length ≤ n)]
        obtain ⟨k, hk⟩ : ∃ k, n - w.length = k + 1 := ⟨n - w.length - 1, by omega⟩
        rw [hk, List.take_succ_cons, show k = n - w.length - 1 from by omega]
        simp
      obtain ⟨st, hst⟩ := validJson_runM hv
      have hdd : d.data = repairData s.data ++ (s.data.drop n ++ t) := by
        rw [hd, hrep, ← List.append_assoc, List.take_append_drop]
      have hrun : ∃ st', runM (repairData s.data) = some st' := by
        unfold runM at hst ⊢
        rw [hdd] at hst
        exact runFrom_isSome_of_append hst
      obtain ⟨st', hst'⟩ := hrun
      have hgood : goodS st' := by
        rw [hshape] at hst'
        unfold runM at hst'
        rw [show w ++ br :: t1.take (n - w.length - 1) =
              w ++ (br :: t1.take (n - w.length - 1)) from rfl,
            runFrom_append, runFrom_ws w hwall, runFrom_cons] at hst'
        rcases hbr with rfl | rfl
        · rw [show stepO (some initS) '{' = some (.run [.objF [] none] .mKey)
              from rfl] at hst'
          exact runFrom_good _ (by simp [goodS]) hst'
        · rw [show stepO (some initS) '[' = some (.run [.arrF []] .mValue)
              from rfl] at hst'
          exact runFrom_good _ (by simp [goodS]) hst'
      obtain ⟨v, hfin⟩ := finalizeTol_good hgood
      refine ⟨v, ?_⟩
      unfold parsePartialJson
      rw [if_neg (by simpa using hws)]
      simp [jiterFromJson, hst', hfin]

/-- C6 (witness for the amended theorem): `[1` is a proper prefix of the
valid array document `[1]` and parses without raising. -/
theorem c6_witness :
    (∀ s0 : String, s0.data.all isPyWs = true → parsePartialJson s0 = .ok (.str "")) ∧
    ∃ v, parsePartialJson "[1" = .ok v :=
  c6_amended "[1]" "[1" rfl rfl ⟨[']'], by simp, rfl⟩
